import Mathlib

/-!
# Verification of the AIMeetingAgent streaming-transcription backend

Shallow embedding of the core of `backend/app/main.py`,
`backend/app/summary_agent.py` and `backend/speechtotext/app/main.py`:

* the summary accumulator (`segment_blocks`, `generate_structured_outline`),
* the text-correction helper (`get_corrected_text`),
* the outbound dispatcher coroutine (`process_messages`, modelled as the
  per-iteration step `dispatchStep`) together with `process_final_text`,
* the websocket session (`websocket_transcribe`, modelled as the step
  function `sessionStep` over per-event environment inputs).

Python strings are modelled as lists of characters (`PyStr`); the opaque
collaborators (Azure recognition engine, OpenAI / correction HTTP service,
the stdlib `json` round-trip) are modelled as environment parameters that
enumerate the outcomes the code distinguishes.
-/

/-- Python `str` modelled as a list of characters. -/
abbrev PyStr := List Char

/-- Convert a Lean string literal to a `PyStr`. -/
def pystr (s : String) : PyStr := s.toList

/-- The whitespace characters removed by Python `str.strip()` (ASCII part;
the source never feeds exotic Unicode whitespace to `strip`). -/
def pyIsSpace (c : Char) : Bool :=
  c = ' ' || c = '\t' || c = '\n' || c = '\r' || c = '\x0b' || c = '\x0c'

/-- Python `str.strip()`: drop leading and trailing whitespace. -/
def pyStrip (s : PyStr) : PyStr :=
  ((s.dropWhile pyIsSpace).reverse.dropWhile pyIsSpace).reverse

/-- Python `str.split("\n")`: split on every newline character; the empty
string splits to `[""]`, exactly as in Python. -/
def pySplitNl : PyStr → List PyStr
  | [] => [[]]
  | c :: rest =>
    if c = '\n' then [] :: pySplitNl rest
    else
      match pySplitNl rest with
      | [] => [[c]]
      | line :: lines => (c :: line) :: lines

/-! ## summary_agent.py : conversation memory and outline reconciliation -/

/-- The LangGraph `MeetingState` dict of `summary_agent.py`:
`transcript`, `structured` (serialized outline JSON or `None`), `memory`. -/
structure MeetingState where
  transcript : PyStr
  structured : Option PyStr
  memory : PyStr
deriving DecidableEq, Repr

/-- `segment_blocks` from `summary_agent.py` (lines 36-50): strip the
transcript; if it is non-empty and not already one of the lines of
`memory` (the Python code tests `text not in prev_memory.split("\n")`),
append it on a new line; otherwise leave the memory unchanged. -/
def segment_blocks (state : MeetingState) : MeetingState :=
  let prev_memory := state.memory
  let text := pyStrip state.transcript
  let updated_memory :=
    if text ≠ [] ∧ text ∉ pySplitNl prev_memory then
      if prev_memory ≠ [] then prev_memory ++ '\n' :: text else text
    else prev_memory
  { state with transcript := text, memory := updated_memory }

/-- The spec's `appendTranscript(text)` operation, realized in the source by
running `segment_blocks` on a state carrying the new transcript; the result
is the updated conversation memory. -/
def appendTranscript (memory text : PyStr) : PyStr :=
  (segment_blocks { transcript := text, structured := none, memory := memory }).memory

/-- Outcome of the language-model call made by `generate_structured_outline`,
as the code distinguishes them: the OpenAI request raised
(`except Exception`), the returned content failed `json.loads`
(`json.JSONDecodeError`), or parsing succeeded, in which case the code
returns `json.dumps(structured_list, ensure_ascii=False)`; that re-serialized
text is carried opaquely since the stdlib `json` module is external. -/
inductive LlmReconcileOutcome where
  | apiError
  | parseFailure
  | parsed (dumped : PyStr)
deriving DecidableEq, Repr

/-- `json.dumps([])`, the fallback value the code produces. -/
def emptyOutline : PyStr := pystr "[]"

/-- `generate_structured_outline` from `summary_agent.py` (lines 150-263):
strips the memory; on a successful parse returns the re-serialized outline,
on `json.JSONDecodeError` sets `structured_list = []` and returns
`json.dumps([]) = "[]"`, and on an OpenAI API failure returns the literal
`"[]"`. -/
def generate_structured_outline (state : MeetingState) (llm : LlmReconcileOutcome) :
    MeetingState :=
  let memory := pyStrip state.memory
  match llm with
  | .apiError => { state with structured := some emptyOutline, memory := memory }
  | .parseFailure => { state with structured := some emptyOutline, memory := memory }
  | .parsed dumped => { state with structured := some dumped, memory := memory }


/-! ## main.py : messages, correction helper, outbound dispatcher -/

/-- The JSON messages sent to the websocket client, keyed by their
`"type"` field (`status`, `interim`, `final_original`, `final_corrected`,
`error`). -/
inductive OutMsg where
  | status (text : PyStr)
  | interim (text : PyStr)
  | final_original (text language : PyStr) (offset duration : Nat)
  | final_corrected (text original_text language : PyStr) (offset duration : Nat)
  | error (text : PyStr)
deriving DecidableEq, Repr

/-- The logical task that performs a given connection write: the
`process_messages` dispatcher coroutine, the `websocket_transcribe`
coroutine before/after its receive loop, the receive loop itself, a
recognition-engine callback, or the correction stage. -/
inductive Actor where
  | dispatcher
  | sessionMain
  | inboundLoop
  | recognitionCb
  | correctionStage
deriving DecidableEq, Repr

/-- Observable events of a session run. -/
inductive Ev where
  | wsWrite (a : Actor) (m : OutMsg)
  | sendFail (m : OutMsg)
  | enq (m : OutMsg)
  | correctionDone (original corrected : PyStr)
  | submit (data : List Nat)
  | teardownRun
  | cancelDispatcher
  | stopRecognition
  | closeStream
  | closeWs
deriving DecidableEq, Repr

/-- Outcome of the HTTP call to `/correct-text` made by
`get_corrected_text`: the `httpx` request raised (timeout or any transport
error), or a response with a status code and, when the body parsed and had
a `"corrected"` key, that corrected text. -/
inductive CorrectionResponse where
  | transportError
  | reply (status : Nat) (corrected : Option PyStr)
deriving DecidableEq, Repr

/-- `get_corrected_text` from `backend/app/main.py` (lines 222-245),
paired with whether the HTTP request to the correction service was
performed at all. Blank input returns immediately without a request;
a 200 response yields `result["corrected"]`; any other status, a missing
or unparsable body (an exception caught by the outer handler), or a
transport error returns the original text. -/
def get_corrected_text (text : PyStr) (resp : CorrectionResponse) : PyStr × Bool :=
  if text = [] ∨ pyStrip text = [] then (text, false)
  else
    match resp with
    | .transportError => (text, true)
    | .reply status corrected =>
      if status = 200 then
        match corrected with
        | some c => (c, true)
        | none => (text, true)
      else (text, true)

/-- One entry of the `processing_queue`: the final utterance produced by
`recognized_cb` (text, language, offset, duration) together with the
environment's outcome for its correction call. -/
structure FinalTask where
  text : PyStr
  language : PyStr
  offset : Nat
  duration : Nat
  resp : CorrectionResponse
deriving DecidableEq, Repr

/-- The corrected text that `get_corrected_text` produces for a task. -/
def correctedOf (t : FinalTask) : PyStr := (get_corrected_text t.text t.resp).1

/-- `process_final_text` from `backend/app/main.py` (lines 247-272): put
the `final_original` message on `message_queue`, await the correction, and
put a `final_corrected` message only when the corrected text differs from
the original. Returns the updated `message_queue` and the events of this
call in order. -/
def process_final_text (mq : List OutMsg) (t : FinalTask) : List OutMsg × List Ev :=
  let orig := OutMsg.final_original t.text t.language t.offset t.duration
  let mq1 := mq ++ [orig]
  let corrected := correctedOf t
  if corrected ≠ t.text then
    let corr := OutMsg.final_corrected corrected t.text t.language t.offset t.duration
    (mq1 ++ [corr], [Ev.enq orig, Ev.correctionDone t.text corrected, Ev.enq corr])
  else
    (mq1, [Ev.enq orig, Ev.correctionDone t.text corrected])

/-- Per-iteration environment of the dispatcher: the websocket send
succeeds, raises, or is skipped because `websocket.client_state` is
`DISCONNECTED`. -/
inductive SendEnv where
  | ok
  | fails
  | disconnected
deriving DecidableEq, Repr

/-- State shared between the `process_messages` dispatcher coroutine and
the rest of the session: the thread-safe `message_queue`, the
`processing_queue` of pending final utterances, and the `is_listening`
flag. -/
structure DispState where
  mq : List OutMsg
  pq : List FinalTask
  is_listening : Bool
deriving DecidableEq, Repr

/-- The second half of one `process_messages` iteration: `get_nowait` on
`processing_queue` and, when a task is present, run `process_final_text`
on it. -/
def taskPart (s : DispState) : DispState × List Ev :=
  match s.pq with
  | [] => (s, [])
  | t :: ts =>
    (⟨(process_final_text s.mq t).1, ts, s.is_listening⟩, (process_final_text s.mq t).2)

/-- One iteration of the `process_messages` loop from `backend/app/main.py`
(lines 194-219).  While `is_listening`: if `message_queue` is non-empty,
pop one message and send it unless the client is disconnected; then handle
at most one `processing_queue` task.  A send exception is caught by the
iteration's `except` block: the message is already consumed, the task part
is skipped, and the loop just continues. When `is_listening` is false the
loop has exited and nothing happens. -/
def dispatchStep (s : DispState) (env : SendEnv) : DispState × List Ev :=
  if s.is_listening then
    match s.mq with
    | [] => taskPart s
    | m :: rest =>
      match env with
      | .disconnected => taskPart ⟨rest, s.pq, s.is_listening⟩
      | .ok =>
        ((taskPart ⟨rest, s.pq, s.is_listening⟩).1,
          Ev.wsWrite Actor.dispatcher m :: (taskPart ⟨rest, s.pq, s.is_listening⟩).2)
      | .fails => (⟨rest, s.pq, s.is_listening⟩, [Ev.sendFail m])
  else (s, [])

/-- Run the dispatcher for one environment input per iteration. -/
def runD : DispState → List SendEnv → DispState × List Ev
  | s, [] => (s, [])
  | s, env :: rest =>
    ((runD (dispatchStep s env).1 rest).1,
      (dispatchStep s env).2 ++ (runD (dispatchStep s env).1 rest).2)

/-- The messages actually delivered to the client, in order: the payloads
of the `wsWrite` events of a trace. -/
def sendsOf (tr : List Ev) : List OutMsg :=
  tr.filterMap fun e =>
    match e with
    | .wsWrite _ m => some m
    | _ => none

/-! ## main.py : the websocket session -/

/-- Per-event environment of one `websocket_transcribe` session: an inbound
receive timeout, an inbound binary frame (with the outcome of
`stream.write` on it), a client disconnect, another receive exception, an
external task cancellation, the three recognition-engine callbacks, or one
iteration of the dispatcher task. -/
inductive SEnv where
  | timeout
  | frame (data : List Nat) (submitErr : Option PyStr)
  | disconnect
  | recvError (msg : PyStr)
  | cancel
  | recognized (t : FinalTask)
  | recognizing (text : PyStr)
  | canceledErr (detail : PyStr)
  | tick (env : SendEnv)
deriving DecidableEq, Repr

/-- State of one `websocket_transcribe` session: the queues shared with
the dispatcher, whether the client websocket has disconnected, and whether
the handler has finished (its `finally` block has run). -/
structure SessState where
  disp : DispState
  disconnected : Bool
  done : Bool
deriving DecidableEq, Repr

/-- The `finally` block of `websocket_transcribe` (lines 413-447): set
`is_listening = False`, cancel the dispatcher task, stop continuous
recognition, close the push audio stream, and close the websocket unless
the client is already disconnected. -/
def teardownStep (s : SessState) : SessState × List Ev :=
  (⟨⟨s.disp.mq, s.disp.pq, false⟩, s.disconnected, true⟩,
    [Ev.teardownRun, Ev.cancelDispatcher, Ev.stopRecognition, Ev.closeStream] ++
      (if s.disconnected then [] else [Ev.closeWs]))

/-- `"Error processing audio: "`, the text both error sends of the receive
loop put in front of the exception detail. -/
def errHead : PyStr := pystr "Error processing audio: "

/-- One step of a `websocket_transcribe` session (lines 300-447) under one
environment event.  A frame that is empty or the single byte `0x00` breaks
out of the receive loop into teardown; other frames are pushed to the
stream, a `stream.write` exception being reported as an `error` message by
the loop itself without terminating it.  Disconnect, another receive
exception and cancellation all leave the loop into teardown.  The
recognition callbacks only append to the queues (after checking
`is_listening` and a non-empty result text), and a dispatcher tick runs
`dispatchStep`.  After the `finally` block has run, nothing happens. -/
def sessionStep (s : SessState) (e : SEnv) : SessState × List Ev :=
  if s.done then (s, [])
  else
    match e with
    | .timeout => (s, [])
    | .frame data submitErr =>
      if data = [] ∨ data = [0] then teardownStep s
      else
        match submitErr with
        | none => (s, [Ev.submit data])
        | some msg => (s, [Ev.wsWrite Actor.inboundLoop (OutMsg.error (errHead ++ msg))])
    | .disconnect => teardownStep { s with disconnected := true }
    | .recvError msg =>
      ((teardownStep s).1,
        Ev.wsWrite Actor.inboundLoop (OutMsg.error (errHead ++ msg)) :: (teardownStep s).2)
    | .cancel => teardownStep s
    | .recognized t =>
      if s.disp.is_listening ∧ t.text ≠ [] then
        ({ s with disp := ⟨s.disp.mq, s.disp.pq ++ [t], s.disp.is_listening⟩ }, [])
      else (s, [])
    | .recognizing text =>
      if s.disp.is_listening ∧ text ≠ [] then
        ({ s with disp := ⟨s.disp.mq ++ [OutMsg.interim text], s.disp.pq, s.disp.is_listening⟩ }, [])
      else (s, [])
    | .canceledErr detail =>
      if s.disp.is_listening then
        ({ s with disp :=
            ⟨s.disp.mq ++ [OutMsg.error (pystr "Recognition error: " ++ detail)],
              s.disp.pq, s.disp.is_listening⟩ }, [])
      else (s, [])
    | .tick env => ({ s with disp := (dispatchStep s.disp env).1 }, (dispatchStep s.disp env).2)

/-- Run a session over a list of environment events. -/
def sessionRunFrom : SessState → List SEnv → SessState × List Ev
  | s, [] => (s, [])
  | s, e :: rest =>
    ((sessionRunFrom (sessionStep s e).1 rest).1,
      (sessionStep s e).2 ++ (sessionRunFrom (sessionStep s e).1 rest).2)

/-- Session state right after the recognizer has been started. -/
def initSess : SessState := ⟨⟨[], [], true⟩, false, false⟩

/-- The confirmation write performed by the `websocket_transcribe`
coroutine itself before entering the receive loop (line 360). -/
def sessionStart : List Ev :=
  [Ev.wsWrite Actor.sessionMain (OutMsg.status (pystr "Recognition started"))]

/-- The full event trace of one session under an environment. -/
def sessionTrace (envs : List SEnv) : List Ev :=
  sessionStart ++ (sessionRunFrom initSess envs).2

/-- The messages one `process_final_text` call appends to `message_queue`. -/
def pftSeg (t : FinalTask) : List OutMsg :=
  OutMsg.final_original t.text t.language t.offset t.duration ::
    (if correctedOf t ≠ t.text then
      [OutMsg.final_corrected (correctedOf t) t.text t.language t.offset t.duration]
    else [])

/-- The events of one `process_final_text` call. -/
def pftEvs (t : FinalTask) : List Ev :=
  Ev.enq (OutMsg.final_original t.text t.language t.offset t.duration) ::
    Ev.correctionDone t.text (correctedOf t) ::
      (if correctedOf t ≠ t.text then
        [Ev.enq (OutMsg.final_corrected (correctedOf t) t.text t.language t.offset t.duration)]
      else [])

/-- Each event of `tr` satisfying `P` is preceded by an event satisfying
`Q`. -/
def precededBy (P Q : Ev → Prop) (tr : List Ev) : Prop :=
  ∀ (j : Nat) (e : Ev), tr[j]? = some e → P e →
    ∃ (i : Nat) (e2 : Ev), i < j ∧ tr[i]? = some e2 ∧ Q e2

/-- Every `final_corrected` message in `L` is preceded (strictly earlier in
`L`) by the `final_original` message of the same utterance. -/
def wellOrdered (L : List OutMsg) : Prop :=
  ∀ (j : Nat) (c u l : PyStr) (o d : Nat),
    L[j]? = some (OutMsg.final_corrected c u l o d) →
    ∃ i : Nat, i < j ∧ L[i]? = some (OutMsg.final_original u l o d)

/-- `L` contains no `final_corrected` message whose original text is `u`. -/
def noCorrFor (u : PyStr) (L : List OutMsg) : Prop :=
  ∀ m ∈ L, ∀ (c l : PyStr) (o d : Nat), m ≠ OutMsg.final_corrected c u l o d

def isTeardownRun : Ev → Bool
  | .teardownRun => true
  | _ => false

def isStopRecognition : Ev → Bool
  | .stopRecognition => true
  | _ => false

def isCloseStream : Ev → Bool
  | .closeStream => true
  | _ => false

def isCloseWs : Ev → Bool
  | .closeWs => true
  | _ => false

/-! ## Lemmas about `pySplitNl` -/

/-- Splitting never yields the empty list (Python `split` always returns at
least one piece). -/
lemma pySplitNl_ne_nil (s : PyStr) : pySplitNl s ≠ [] := by
  induction s with
  | nil => simp [pySplitNl]
  | cons c rest ih =>
    by_cases hc : c = '\n'
    · simp [pySplitNl, hc]
    · simp only [pySplitNl, if_neg hc]
      cases h : pySplitNl rest <;> simp

/-- A string without a newline splits to the singleton of itself. -/
lemma pySplitNl_no_nl {s : PyStr} (h : '\n' ∉ s) : pySplitNl s = [s] := by
  induction s with
  | nil => rfl
  | cons c rest ih =>
    have hc : c ≠ '\n' := fun hcc => h (hcc ▸ List.mem_cons_self c rest)
    have hr : '\n' ∉ rest := fun hm => h (List.mem_cons_of_mem _ hm)
    simp [pySplitNl, if_neg hc, ih hr]

/-- Splitting distributes over a newline join. -/
lemma pySplitNl_append (a b : PyStr) :
    pySplitNl (a ++ '\n' :: b) = pySplitNl a ++ pySplitNl b := by
  induction a with
  | nil => simp [pySplitNl]
  | cons c a ih =>
    by_cases hc : c = '\n'
    · subst hc
      simp [pySplitNl, ih]
    · obtain ⟨l, ls, hls⟩ : ∃ l ls, pySplitNl a = l :: ls := by
        cases h : pySplitNl a with
        | nil => exact absurd h (pySplitNl_ne_nil a)
        | cons l ls => exact ⟨l, ls, rfl⟩
      simp only [List.cons_append, pySplitNl, if_neg hc, List.append_eq]
      rw [ih, hls]
      simp

/-- Closed form of `appendTranscript`. -/
lemma appendTranscript_eq (m t : PyStr) :
    appendTranscript m t =
      if pyStrip t ≠ [] ∧ pyStrip t ∉ pySplitNl m then
        if m ≠ [] then m ++ '\n' :: pyStrip t else pyStrip t
      else m := rfl

/-! ## Claim C9 -/

/-- C9 counterexample: appending the non-empty text `"a\nb"` twice in a row
doubles the memory, because the deduplication test compares the whole text
against the individual lines of the memory, and a text containing an
embedded newline never equals any single line.  This refutes the claim that
for every conversation-memory state and every non-empty text, appending the
same text twice yields the same memory as appending it once. -/
theorem appendTranscript_double_cex :
    appendTranscript (appendTranscript [] (pystr "a\nb")) (pystr "a\nb")
      ≠ appendTranscript [] (pystr "a\nb") ∧
    appendTranscript (appendTranscript [] (pystr "a\nb")) (pystr "a\nb")
      = pystr "a\nb\na\nb" := by
  decide

/-- C9 (amended): for every conversation-memory state and every text that
is non-empty and single-line after stripping (no embedded newline),
appending the same text twice in a row yields the same memory as appending
it once: the duplicate is not re-appended and the memory content is not
doubled. -/
theorem appendTranscript_idem (m t : PyStr) (ht : pyStrip t ≠ [])
    (hn : '\n' ∉ pyStrip t) :
    appendTranscript (appendTranscript m t) t = appendTranscript m t := by
  by_cases hmem : pyStrip t ∈ pySplitNl m
  · have h1 : appendTranscript m t = m := by
      rw [appendTranscript_eq]
      simp [hmem]
    rw [h1]
    exact h1
  · have h1 : appendTranscript m t =
        if m ≠ [] then m ++ '\n' :: pyStrip t else pyStrip t := by
      rw [appendTranscript_eq]
      simp [ht, hmem]
    have hmem2 : pyStrip t ∈ pySplitNl (appendTranscript m t) := by
      rw [h1]
      by_cases hm : m = []
      · simp [hm, pySplitNl_no_nl hn]
      · rw [if_pos hm, pySplitNl_append, pySplitNl_no_nl hn]
        simp
    rw [appendTranscript_eq (appendTranscript m t) t]
    simp [hmem2]

/-- Witness for `appendTranscript_idem` at a concrete input. -/
theorem appendTranscript_idem_witness :
    appendTranscript (appendTranscript (pystr "old line") (pystr " hello "))
        (pystr " hello ")
      = appendTranscript (pystr "old line") (pystr " hello ") :=
  appendTranscript_idem (pystr "old line") (pystr " hello ") (by decide) (by decide)

/-! ## Claim C1 -/

/-- C1 counterexample: with a previous outline present, a parse failure in
`generate_structured_outline` makes the returned outline the empty outline
`"[]"`, not the previous outline.  This refutes the claim that on a parse
failure the returned outline is deep-equal to the previous outline and is
never an empty outline. -/
theorem reconcile_parse_failure_cex :
    ¬ ((generate_structured_outline
          ⟨pystr "new text", some (pystr "[previous outline]"), pystr "memory"⟩
          LlmReconcileOutcome.parseFailure).structured
        = some (pystr "[previous outline]") ∧
       (generate_structured_outline
          ⟨pystr "new text", some (pystr "[previous outline]"), pystr "memory"⟩
          LlmReconcileOutcome.parseFailure).structured
        ≠ some emptyOutline) := by
  decide

/-- C1 (amended): on a parse failure — and likewise on an API failure —
`generate_structured_outline` returns the empty outline `"[]"` regardless
of the previously produced outline; prior sections are discarded rather
than preserved. -/
theorem reconcile_parse_failure_empty (state : MeetingState) :
    (generate_structured_outline state LlmReconcileOutcome.parseFailure).structured
        = some emptyOutline ∧
    (generate_structured_outline state LlmReconcileOutcome.apiError).structured
        = some emptyOutline :=
  ⟨rfl, rfl⟩

/-! ## Claims C6 and C10 -/

/-- C6: `get_corrected_text` fails open — whenever the request to the
correction service times out or fails with any transport error
(`transportError`), or the service answers with a non-2xx status code, the
helper returns the original text unchanged. -/
theorem get_corrected_text_fail_open (text : PyStr) (resp : CorrectionResponse)
    (h : resp = CorrectionResponse.transportError ∨
         ∃ status corrected, resp = CorrectionResponse.reply status corrected ∧
           (status < 200 ∨ 300 ≤ status)) :
    (get_corrected_text text resp).1 = text := by
  unfold get_corrected_text
  split
  · rfl
  · rcases h with h | ⟨status, corrected, rfl, hs⟩
    · subst h
      rfl
    · have h200 : status ≠ 200 := by omega
      simp [h200]

/-- Witness for `get_corrected_text_fail_open` at a concrete input. -/
theorem get_corrected_text_fail_open_witness :
    (get_corrected_text (pystr "hello wrld") (CorrectionResponse.reply 503 none)).1
      = pystr "hello wrld" :=
  get_corrected_text_fail_open (pystr "hello wrld") (CorrectionResponse.reply 503 none)
    (Or.inr ⟨503, none, rfl, by omega⟩)

/-- C10: for input that is empty or whitespace-only, `get_corrected_text`
returns the text unchanged and performs no request to the correction
service at all (the second component records whether the HTTP request was
made). -/
theorem get_corrected_text_blank (text : PyStr) (resp : CorrectionResponse)
    (h : pyStrip text = []) :
    get_corrected_text text resp = (text, false) := by
  unfold get_corrected_text
  rw [if_pos (Or.inr h)]

/-- Witness for `get_corrected_text_blank` at a concrete input. -/
theorem get_corrected_text_blank_witness :
    get_corrected_text (pystr "   ") CorrectionResponse.transportError
      = (pystr "   ", false) :=
  get_corrected_text_blank (pystr "   ") CorrectionResponse.transportError (by decide)

/-! ## Claim C3 -/

/-- C3 counterexample: when the websocket send raises in a dispatcher
iteration, the exception handler of `process_messages` only logs and
sleeps; `is_listening` is not set to false.  This refutes the claim that on
a write failure the outbound dispatcher sets `is_listening` to false and
exits its loop. -/
theorem dispatcher_write_failure_cex :
    ¬ ((dispatchStep ⟨[OutMsg.interim (pystr "x")], [], true⟩ SendEnv.fails).1.is_listening
        = false) := by
  decide

/-- C3 (amended): on a write failure the dispatcher drops the already
dequeued message without retrying it (the only event is the failed send;
no successful write of it ever happens and it is gone from the queue), the
task part of the iteration is skipped, and the loop continues with
`is_listening` unchanged — the dispatcher does not exit on a write
failure. -/
theorem dispatcher_write_failure_continues (s : DispState) (m : OutMsg)
    (rest : List OutMsg) (hmq : s.mq = m :: rest) (hl : s.is_listening = true) :
    (dispatchStep s SendEnv.fails).1 = ⟨rest, s.pq, true⟩ ∧
    (dispatchStep s SendEnv.fails).2 = [Ev.sendFail m] := by
  rcases s with ⟨mq, pq, il⟩
  simp only at hmq hl
  subst hmq
  subst hl
  exact ⟨rfl, rfl⟩

/-- Witness for `dispatcher_write_failure_continues` at a concrete input. -/
theorem dispatcher_write_failure_continues_witness :
    (dispatchStep ⟨[OutMsg.interim (pystr "x")], [], true⟩ SendEnv.fails).1
        = ⟨[], [], true⟩ ∧
    (dispatchStep ⟨[OutMsg.interim (pystr "x")], [], true⟩ SendEnv.fails).2
        = [Ev.sendFail (OutMsg.interim (pystr "x"))] :=
  dispatcher_write_failure_continues ⟨[OutMsg.interim (pystr "x")], [], true⟩
    (OutMsg.interim (pystr "x")) [] rfl rfl

/-! ## Claim C2 -/

/-- C2 counterexample: the dispatcher awaits `process_final_text` — and
with it the whole correction call — inside one of its own iterations, so
the websocket send of the `final_original` message can only happen on a
later iteration, after the correction has completed.  In this concrete
three-iteration run the correction completes at trace index 1 while
`final_original` is delivered at index 3, refuting the claim that the
`FinalOriginal` message is emitted to the client without waiting for the
correction call to complete (never delayed by the correction stage). -/
theorem final_original_delayed_cex :
    ¬ (∀ (i j : Nat) (u l : PyStr) (o d : Nat) (c : PyStr),
        ((runD ⟨[], [⟨pystr "hello", pystr "en", 0, 5,
              CorrectionResponse.reply 200 (some (pystr "hullo"))⟩], true⟩
            [SendEnv.ok, SendEnv.ok, SendEnv.ok]).2)[i]?
            = some (Ev.wsWrite Actor.dispatcher (OutMsg.final_original u l o d)) →
        ((runD ⟨[], [⟨pystr "hello", pystr "en", 0, 5,
              CorrectionResponse.reply 200 (some (pystr "hullo"))⟩], true⟩
            [SendEnv.ok, SendEnv.ok, SendEnv.ok]).2)[j]?
            = some (Ev.correctionDone u c) →
        i < j) := by
  intro h
  have h31 := h 3 1 (pystr "hello") (pystr "en") 0 5 (pystr "hullo")
    (by decide) (by decide)
  omega

/-! ## Characterizing one `process_final_text` call -/

lemma process_final_text_fst (mq : List OutMsg) (t : FinalTask) :
    (process_final_text mq t).1 = mq ++ pftSeg t := by
  simp only [process_final_text, pftSeg]
  split_ifs with h <;> simp

lemma process_final_text_snd (mq : List OutMsg) (t : FinalTask) :
    (process_final_text mq t).2 = pftEvs t := by
  simp only [process_final_text, pftEvs]
  split_ifs with h <;> rfl

lemma sendsOf_nil : sendsOf [] = [] := rfl

lemma sendsOf_append (a b : List Ev) : sendsOf (a ++ b) = sendsOf a ++ sendsOf b :=
  List.filterMap_append a b _

lemma sendsOf_pftEvs (t : FinalTask) : sendsOf (pftEvs t) = [] := by
  unfold pftEvs
  split_ifs <;> rfl

lemma sendsOf_cons_wsWrite (a : Actor) (m : OutMsg) (tr : List Ev) :
    sendsOf (Ev.wsWrite a m :: tr) = m :: sendsOf tr := rfl

/-! ## Precedence of events inside a trace -/

lemma precededBy_nil (P Q : Ev → Prop) : precededBy P Q [] := by
  intro j e hj
  simp at hj

lemma precededBy_append {P Q : Ev → Prop} {A B : List Ev}
    (hA : precededBy P Q A) (hB : precededBy P Q B) : precededBy P Q (A ++ B) := by
  intro j e hj hP
  by_cases hjA : j < A.length
  · rw [List.getElem?_append_left hjA] at hj
    obtain ⟨i, e2, hij, hie, hQ⟩ := hA j e hj hP
    exact ⟨i, e2, hij, by rw [List.getElem?_append_left (lt_trans hij hjA)]; exact hie, hQ⟩
  · have hle : A.length ≤ j := le_of_not_lt hjA
    rw [List.getElem?_append_right hle] at hj
    obtain ⟨i, e2, hij, hie, hQ⟩ := hB (j - A.length) e hj hP
    refine ⟨A.length + i, e2, by omega, ?_, hQ⟩
    rw [List.getElem?_append_right (by omega)]
    simpa using hie

lemma precededBy_single {P Q : Ev → Prop} {e : Ev} (h : ¬ P e) :
    precededBy P Q [e] := by
  intro j e2 hj hP
  rcases j with _ | j
  · simp at hj
    subst hj
    exact absurd hP h
  · simp at hj

/-- In the events of one `process_final_text` call, a completed correction
for utterance text `u` is always preceded by the enqueue of the
`final_original` message for `u`. -/
lemma pft_cd_preceded (u : PyStr) (mq : List OutMsg) (t : FinalTask) :
    precededBy (fun e => ∃ c, e = Ev.correctionDone u c)
      (fun e => ∃ l o d, e = Ev.enq (OutMsg.final_original u l o d))
      (process_final_text mq t).2 := by
  rw [process_final_text_snd]
  unfold pftEvs
  intro j e hj hP
  rcases j with _ | _ | j
  · simp at hj
    subst hj
    obtain ⟨c, hc⟩ := hP
    simp at hc
  · simp at hj
    subst hj
    obtain ⟨c, hc⟩ := hP
    injection hc with h1 h2
    refine ⟨0, Ev.enq (OutMsg.final_original t.text t.language t.offset t.duration),
      by omega, by simp, ⟨t.language, t.offset, t.duration, ?_⟩⟩
    rw [h1]
  · by_cases hc : correctedOf t ≠ t.text
    · rw [if_pos hc] at hj
      rcases j with _ | j
      · simp at hj
        subst hj
        obtain ⟨c, hcc⟩ := hP
        simp at hcc
      · simp at hj
    · rw [if_neg hc] at hj
      simp at hj

/-- In the events of one `process_final_text` call, the enqueue of a
`final_corrected` message is always preceded by the completion of the
correction call that produced it. -/
lemma pft_corr_preceded (c0 u l : PyStr) (o d : Nat) (mq : List OutMsg)
    (t : FinalTask) :
    precededBy (fun e => e = Ev.enq (OutMsg.final_corrected c0 u l o d))
      (fun e => e = Ev.correctionDone u c0)
      (process_final_text mq t).2 := by
  rw [process_final_text_snd]
  unfold pftEvs
  intro j e hj hP
  rcases j with _ | _ | j
  · simp at hj
    subst hj
    simp at hP
  · simp at hj
    subst hj
    simp at hP
  · by_cases hc : correctedOf t ≠ t.text
    · rw [if_pos hc] at hj
      rcases j with _ | j
      · simp at hj
        subst hj
        injection hP with hP2
        injection hP2 with e1 e2 e3 e4 e5
        refine ⟨1, Ev.correctionDone t.text (correctedOf t), by omega, by simp, ?_⟩
        rw [e1, e2]
      · simp at hj
    · rw [if_neg hc] at hj
      simp at hj

/-- Lift a `precededBy` property through `taskPart`. -/
lemma taskPart_preceded {P Q : Ev → Prop}
    (h : ∀ mq t, precededBy P Q (process_final_text mq t).2) (s : DispState) :
    precededBy P Q (taskPart s).2 := by
  rcases hpq : s.pq with _ | ⟨t, ts⟩ <;> simp only [taskPart, hpq]
  · exact precededBy_nil P Q
  · exact h s.mq t

/-- Lift a `precededBy` property through one dispatcher iteration, provided
no websocket write or failed send can match `P`. -/
lemma dispatchStep_preceded {P Q : Ev → Prop}
    (hpft : ∀ mq t, precededBy P Q (process_final_text mq t).2)
    (hws : ∀ a m, ¬ P (Ev.wsWrite a m)) (hsf : ∀ m, ¬ P (Ev.sendFail m))
    (s : DispState) (env : SendEnv) :
    precededBy P Q (dispatchStep s env).2 := by
  by_cases hl : s.is_listening
  · rcases hmq : s.mq with _ | ⟨m, rest⟩
    · simp only [dispatchStep, hl, hmq, if_true]
      exact taskPart_preceded hpft s
    · cases env <;> simp only [dispatchStep, hl, hmq, if_true]
      · exact precededBy_append (precededBy_single (hws Actor.dispatcher m))
          (taskPart_preceded hpft ⟨rest, s.pq, true⟩)
      · exact precededBy_single (hsf m)
      · exact taskPart_preceded hpft ⟨rest, s.pq, true⟩
  · simp only [dispatchStep, if_neg hl]
    exact precededBy_nil P Q

/-- Lift a `precededBy` property through a whole dispatcher run. -/
lemma runD_preceded {P Q : Ev → Prop}
    (hstep : ∀ s env, precededBy P Q (dispatchStep s env).2) :
    ∀ (envs : List SendEnv) (s : DispState), precededBy P Q (runD s envs).2 := by
  intro envs
  induction envs with
  | nil => intro s; exact precededBy_nil P Q
  | cons e es ih =>
    intro s
    exact precededBy_append (hstep s e) (ih (dispatchStep s e).1)

/-- C2 (amended): for every final recognition event processed by the
dispatcher, the `final_original` message is enqueued for delivery before
the correction call completes, and a `final_corrected` message is enqueued
only after the correction call for that utterance has completed.  (The
websocket delivery of `final_original` happens on a later dispatcher
iteration, so — as `final_original_delayed_cex` shows — it is not
guaranteed to precede completion of the correction call.) -/
theorem final_original_enqueued_before_correction (s : DispState)
    (envs : List SendEnv) :
    (∀ u : PyStr, precededBy (fun e => ∃ c, e = Ev.correctionDone u c)
        (fun e => ∃ l o d, e = Ev.enq (OutMsg.final_original u l o d))
        (runD s envs).2) ∧
    (∀ (c u l : PyStr) (o d : Nat),
      precededBy (fun e => e = Ev.enq (OutMsg.final_corrected c u l o d))
        (fun e => e = Ev.correctionDone u c)
        (runD s envs).2) := by
  constructor
  · intro u
    refine runD_preceded (fun s1 env => ?_) envs s
    refine dispatchStep_preceded (fun mq t => pft_cd_preceded u mq t) ?_ ?_ s1 env
    · intro a m ⟨c, hc⟩
      exact Ev.noConfusion hc
    · intro m ⟨c, hc⟩
      exact Ev.noConfusion hc
  · intro c u l o d
    refine runD_preceded (fun s1 env => ?_) envs s
    refine dispatchStep_preceded (fun mq t => pft_corr_preceded c u l o d mq t) ?_ ?_ s1 env
    · intro a m hc
      exact Ev.noConfusion hc
    · intro m hc
      exact Ev.noConfusion hc

/-! ## Claim C5 : delivery order of final messages -/

lemma wellOrdered_nil : wellOrdered [] := by
  intro j c u l o d hj
  simp at hj

lemma wellOrdered_left {A B : List OutMsg} (h : wellOrdered (A ++ B)) :
    wellOrdered A := by
  intro j c u l o d hj
  have hjA : j < A.length := by
    by_contra hc
    rw [List.getElem?_eq_none (le_of_not_lt hc)] at hj
    exact Option.noConfusion hj
  have hj2 : (A ++ B)[j]? = some (OutMsg.final_corrected c u l o d) := by
    rw [List.getElem?_append_left hjA]
    exact hj
  obtain ⟨i, hij, hi⟩ := h j c u l o d hj2
  refine ⟨i, hij, ?_⟩
  rw [List.getElem?_append_left (lt_trans hij hjA)] at hi
  exact hi

/-- Appending the messages of one `process_final_text` call preserves
well-orderedness: the segment is either just the original, or the original
immediately followed by its own corrected variant. -/
lemma wellOrdered_append_pftSeg {L : List OutMsg} (h : wellOrdered L)
    (t : FinalTask) : wellOrdered (L ++ pftSeg t) := by
  intro j c u l o d hj
  by_cases hjL : j < L.length
  · rw [List.getElem?_append_left hjL] at hj
    obtain ⟨i, hij, hi⟩ := h j c u l o d hj
    exact ⟨i, hij, by rw [List.getElem?_append_left (lt_trans hij hjL)]; exact hi⟩
  · have hle : L.length ≤ j := le_of_not_lt hjL
    rw [List.getElem?_append_right hle] at hj
    unfold pftSeg at hj
    rcases hk : j - L.length with _ | k
    · rw [hk] at hj
      simp at hj
    · rw [hk] at hj
      simp only [List.getElem?_cons_succ] at hj
      by_cases hcorr : correctedOf t ≠ t.text
      · rw [if_pos hcorr] at hj
        rcases k with _ | k
        · simp at hj
          obtain ⟨hc, hu, hl2, ho, hd⟩ := hj
          refine ⟨L.length, by omega, ?_⟩
          rw [List.getElem?_append_right (le_refl L.length)]
          simp [pftSeg, hu, hl2, ho, hd]
        · simp at hj
      · rw [if_neg hcorr] at hj
        simp at hj

/-- Decomposition of one dispatcher iteration under a successful send
environment: the sequence "messages delivered this iteration followed by
the remaining queue" either equals the old queue (no task processed), or
equals the old queue followed by the block of one `process_final_text`
call, in which case the processed task was the head of the processing
queue. -/
lemma dispatchStep_ok_decomp (s : DispState) :
    (sendsOf (dispatchStep s SendEnv.ok).2 ++ (dispatchStep s SendEnv.ok).1.mq = s.mq ∧
      (dispatchStep s SendEnv.ok).1.pq = s.pq) ∨
    (∃ t : FinalTask, s.pq = t :: (dispatchStep s SendEnv.ok).1.pq ∧
      sendsOf (dispatchStep s SendEnv.ok).2 ++ (dispatchStep s SendEnv.ok).1.mq
        = s.mq ++ pftSeg t) := by
  by_cases hl : s.is_listening
  · rcases hmq : s.mq with _ | ⟨m, rest⟩
    · rcases hpq : s.pq with _ | ⟨t, ts⟩
      · left
        simp [dispatchStep, taskPart, hl, hmq, hpq, sendsOf]
      · right
        refine ⟨t, ?_, ?_⟩
        · simp [dispatchStep, taskPart, hl, hmq, hpq]
        · simp [dispatchStep, taskPart, hl, hmq, hpq, process_final_text_snd,
            process_final_text_fst, sendsOf_pftEvs]
    · rcases hpq : s.pq with _ | ⟨t, ts⟩
      · left
        constructor
        · simp [dispatchStep, taskPart, hl, hmq, hpq, sendsOf]
        · simp [dispatchStep, taskPart, hl, hmq, hpq]
      · right
        refine ⟨t, ?_, ?_⟩
        · simp [dispatchStep, taskPart, hl, hmq, hpq]
        · simp only [dispatchStep, hl, hmq, if_true, taskPart, hpq,
            process_final_text_snd, process_final_text_fst]
          rw [sendsOf_cons_wsWrite, sendsOf_pftEvs]
          simp
  · left
    simp [dispatchStep, hl, sendsOf]

/-- One successful dispatcher iteration preserves well-orderedness of
"all messages delivered so far followed by the pending queue". -/
lemma step_wellOrdered (s : DispState) (sent : List OutMsg)
    (h : wellOrdered (sent ++ s.mq)) :
    wellOrdered ((sent ++ sendsOf (dispatchStep s SendEnv.ok).2)
      ++ (dispatchStep s SendEnv.ok).1.mq) := by
  rcases dispatchStep_ok_decomp s with ⟨hd, _⟩ | ⟨t, _, hd⟩
  · rw [List.append_assoc, hd]
    exact h
  · rw [List.append_assoc, hd, ← List.append_assoc]
    exact wellOrdered_append_pftSeg h t

/-- Whole-run invariant: starting from a well-ordered history, a dispatcher
run in which every send succeeds keeps the delivered messages plus the
remaining queue well-ordered. -/
lemma runD_wellOrdered (envs : List SendEnv) :
    ∀ (s : DispState) (sent : List OutMsg), (∀ e ∈ envs, e = SendEnv.ok) →
      wellOrdered (sent ++ s.mq) →
      wellOrdered ((sent ++ sendsOf (runD s envs).2) ++ (runD s envs).1.mq) := by
  induction envs with
  | nil =>
    intro s sent _ h
    simpa using h
  | cons e es ih =>
    intro s sent hok h
    have he : e = SendEnv.ok := hok e (List.mem_cons_self e es)
    subst he
    have hstep := step_wellOrdered s sent h
    have hrec := ih (dispatchStep s SendEnv.ok).1
      (sent ++ sendsOf (dispatchStep s SendEnv.ok).2)
      (fun e2 he2 => hok e2 (List.mem_cons_of_mem _ he2)) hstep
    have hsh : (runD s (SendEnv.ok :: es)).2
        = (dispatchStep s SendEnv.ok).2 ++ (runD (dispatchStep s SendEnv.ok).1 es).2 := rfl
    have hst : (runD s (SendEnv.ok :: es)).1 = (runD (dispatchStep s SendEnv.ok).1 es).1 := rfl
    rw [hsh, hst, sendsOf_append]
    simpa [List.append_assoc] using hrec

lemma noCorrFor_append {u : PyStr} {A B : List OutMsg}
    (hA : noCorrFor u A) (hB : noCorrFor u B) : noCorrFor u (A ++ B) := by
  intro m hm
  rcases List.mem_append.mp hm with h | h
  · exact hA m h
  · exact hB m h

lemma noCorrFor_left {u : PyStr} {A B : List OutMsg}
    (h : noCorrFor u (A ++ B)) : noCorrFor u A :=
  fun m hm => h m (List.mem_append_left B hm)

/-- The messages of one `process_final_text` call contain no corrected
variant for utterance text `u`, provided the correction for `u` (if this is
the task for `u`) returned `u` itself. -/
lemma noCorrFor_pftSeg {u : PyStr} (t : FinalTask)
    (hu : t.text = u → correctedOf t = u) : noCorrFor u (pftSeg t) := by
  intro m hm c l o d
  unfold pftSeg at hm
  rcases List.mem_cons.mp hm with rfl | hm2
  · intro he
    exact OutMsg.noConfusion he
  · by_cases hcorr : correctedOf t ≠ t.text
    · rw [if_pos hcorr] at hm2
      simp at hm2
      subst hm2
      intro he
      injection he with e1 e2 e3 e4 e5
      exact hcorr (by rw [hu e2, ← e2])
    · rw [if_neg hcorr] at hm2
      simp at hm2

/-- Whole-run invariant: if the correction of every pending task for
utterance text `u` returns `u` itself, a dispatcher run in which every
send succeeds never produces a corrected variant for `u`. -/
lemma runD_noCorr (envs : List SendEnv) (u : PyStr) :
    ∀ (s : DispState) (sent : List OutMsg), (∀ e ∈ envs, e = SendEnv.ok) →
      noCorrFor u (sent ++ s.mq) →
      (∀ t ∈ s.pq, t.text = u → correctedOf t = u) →
      noCorrFor u ((sent ++ sendsOf (runD s envs).2) ++ (runD s envs).1.mq) := by
  induction envs with
  | nil =>
    intro s sent _ h _
    simpa using h
  | cons e es ih =>
    intro s sent hok h hpq
    have he : e = SendEnv.ok := hok e (List.mem_cons_self e es)
    subst he
    rcases dispatchStep_ok_decomp s with ⟨hd, hq⟩ | ⟨t, hq, hd⟩
    · have hstep : noCorrFor u ((sent ++ sendsOf (dispatchStep s SendEnv.ok).2)
          ++ (dispatchStep s SendEnv.ok).1.mq) := by
        rw [List.append_assoc, hd]
        exact h
      have hpq2 : ∀ t2 ∈ (dispatchStep s SendEnv.ok).1.pq, t2.text = u → correctedOf t2 = u := by
        intro t2 ht2
        exact hpq t2 (hq ▸ ht2)
      have hrec := ih (dispatchStep s SendEnv.ok).1
        (sent ++ sendsOf (dispatchStep s SendEnv.ok).2)
        (fun e2 he2 => hok e2 (List.mem_cons_of_mem _ he2)) hstep hpq2
      have hsh : (runD s (SendEnv.ok :: es)).2
          = (dispatchStep s SendEnv.ok).2 ++ (runD (dispatchStep s SendEnv.ok).1 es).2 := rfl
      have hst : (runD s (SendEnv.ok :: es)).1
          = (runD (dispatchStep s SendEnv.ok).1 es).1 := rfl
      rw [hsh, hst, sendsOf_append]
      intro m hm
      refine hrec m ?_
      simpa [List.append_assoc] using hm
    · have ht : t ∈ s.pq := by
        rw [hq]
        exact List.mem_cons_self t _
      have hstep : noCorrFor u ((sent ++ sendsOf (dispatchStep s SendEnv.ok).2)
          ++ (dispatchStep s SendEnv.ok).1.mq) := by
        rw [List.append_assoc, hd, ← List.append_assoc]
        exact noCorrFor_append h (noCorrFor_pftSeg t (hpq t ht))
      have hpq2 : ∀ t2 ∈ (dispatchStep s SendEnv.ok).1.pq, t2.text = u → correctedOf t2 = u := by
        intro t2 ht2
        refine hpq t2 ?_
        rw [hq]
        exact List.mem_cons_of_mem t ht2
      have hrec := ih (dispatchStep s SendEnv.ok).1
        (sent ++ sendsOf (dispatchStep s SendEnv.ok).2)
        (fun e2 he2 => hok e2 (List.mem_cons_of_mem _ he2)) hstep hpq2
      have hsh : (runD s (SendEnv.ok :: es)).2
          = (dispatchStep s SendEnv.ok).2 ++ (runD (dispatchStep s SendEnv.ok).1 es).2 := rfl
      have hst : (runD s (SendEnv.ok :: es)).1
          = (runD (dispatchStep s SendEnv.ok).1 es).1 := rfl
      rw [hsh, hst, sendsOf_append]
      intro m hm
      refine hrec m ?_
      simpa [List.append_assoc] using hm

/-- C5 counterexample: the unrestricted claim — for every final utterance
the client observes `final_original` strictly before the corresponding
`final_corrected` — fails in the code, because the dispatcher drops an
already-dequeued message when its send raises and just keeps looping.  In
this concrete run the send of `final_original` fails transiently and the
next send succeeds, so the only message the client receives is the
`final_corrected` variant, with no preceding `final_original`. -/
theorem corrected_without_original_cex :
    sendsOf (runD ⟨[], [⟨pystr "hi", pystr "en", 0, 7,
          CorrectionResponse.reply 200 (some (pystr "hey"))⟩], true⟩
        [SendEnv.ok, SendEnv.fails, SendEnv.ok]).2
      = [OutMsg.final_corrected (pystr "hey") (pystr "hi") (pystr "en") 0 7] ∧
    ¬ wellOrdered (sendsOf (runD ⟨[], [⟨pystr "hi", pystr "en", 0, 7,
          CorrectionResponse.reply 200 (some (pystr "hey"))⟩], true⟩
        [SendEnv.ok, SendEnv.fails, SendEnv.ok]).2) := by
  constructor
  · decide
  · intro h
    obtain ⟨i, hi, _⟩ := h 0 (pystr "hey") (pystr "hi") (pystr "en") 0 7 (by decide)
    omega

/-- C5 (amended): in a dispatcher run (starting from an empty message
queue) in which every attempted websocket send succeeds — the client stays
connected and writable — the stream of messages the client observes is
well-ordered: every `final_corrected` message is strictly preceded by the
`final_original` message of the same utterance (same original text,
language, offset and duration).  Moreover, for an utterance text `u` whose
correction fails or returns text identical to `u` (both make
`get_corrected_text` yield `u` itself), no `final_corrected` message for
`u` is ever sent.  (Without the successful-send restriction the ordering
part fails: see `corrected_without_original_cex`.) -/
theorem final_original_before_corrected (tasks : List FinalTask)
    (envs : List SendEnv) (hok : ∀ e ∈ envs, e = SendEnv.ok) :
    wellOrdered (sendsOf (runD ⟨[], tasks, true⟩ envs).2) ∧
    ∀ u : PyStr, (∀ t ∈ tasks, t.text = u → correctedOf t = u) →
      noCorrFor u (sendsOf (runD ⟨[], tasks, true⟩ envs).2) := by
  constructor
  · have h := runD_wellOrdered envs ⟨[], tasks, true⟩ [] hok
      (by simpa using wellOrdered_nil)
    have h2 := wellOrdered_left h
    simpa using h2
  · intro u hu
    have h := runD_noCorr envs u ⟨[], tasks, true⟩ [] hok
      (by intro m hm; simp at hm) hu
    have h2 := noCorrFor_left h
    simpa using h2

/-- Witness for `final_original_before_corrected` at a concrete input: one
final utterance whose correction succeeds with a different text, three
successful dispatcher iterations. -/
theorem final_original_before_corrected_witness :
    wellOrdered (sendsOf (runD ⟨[], [⟨pystr "hi", pystr "en", 0, 7,
        CorrectionResponse.reply 200 (some (pystr "hey"))⟩], true⟩
      [SendEnv.ok, SendEnv.ok, SendEnv.ok]).2) ∧
    ∀ u : PyStr, (∀ t ∈ [(⟨pystr "hi", pystr "en", 0, 7,
          CorrectionResponse.reply 200 (some (pystr "hey"))⟩ : FinalTask)],
        t.text = u → correctedOf t = u) →
      noCorrFor u (sendsOf (runD ⟨[], [⟨pystr "hi", pystr "en", 0, 7,
          CorrectionResponse.reply 200 (some (pystr "hey"))⟩], true⟩
        [SendEnv.ok, SendEnv.ok, SendEnv.ok]).2) :=
  final_original_before_corrected
    [⟨pystr "hi", pystr "en", 0, 7, CorrectionResponse.reply 200 (some (pystr "hey"))⟩]
    [SendEnv.ok, SendEnv.ok, SendEnv.ok] (by decide)

/-! ## Claim C4 : who writes to the connection -/

/-- Every event of one `process_final_text` call is an enqueue or a
completed correction — in particular never a connection write. -/
lemma pftEvs_shape (t : FinalTask) :
    ∀ e ∈ pftEvs t, (∃ m, e = Ev.enq m) ∨ ∃ a b, e = Ev.correctionDone a b := by
  intro e he
  unfold pftEvs at he
  split_ifs at he
  · simp at he
    rcases he with rfl | rfl | rfl
    · exact Or.inl ⟨_, rfl⟩
    · exact Or.inr ⟨_, _, rfl⟩
    · exact Or.inl ⟨_, rfl⟩
  · simp at he
    rcases he with rfl | rfl
    · exact Or.inl ⟨_, rfl⟩
    · exact Or.inr ⟨_, _, rfl⟩

lemma taskPart_ev_shape (s : DispState) :
    ∀ e ∈ (taskPart s).2, (∃ m, e = Ev.enq m) ∨ ∃ a b, e = Ev.correctionDone a b := by
  intro e he
  rcases hpq : s.pq with _ | ⟨t, ts⟩
  · simp [taskPart, hpq] at he
  · simp only [taskPart, hpq] at he
    rw [process_final_text_snd] at he
    exact pftEvs_shape t e he

lemma taskPart_no_write (s : DispState) (a : Actor) (m : OutMsg) :
    Ev.wsWrite a m ∉ (taskPart s).2 := by
  intro h
  rcases taskPart_ev_shape s _ h with ⟨m2, hm⟩ | ⟨a2, b2, hm⟩ <;> exact Ev.noConfusion hm

/-- The only connection writes the dispatcher iteration performs carry the
dispatcher actor. -/
lemma dispatchStep_writers (s : DispState) (env : SendEnv) (a : Actor) (m : OutMsg)
    (h : Ev.wsWrite a m ∈ (dispatchStep s env).2) : a = Actor.dispatcher := by
  by_cases hl : s.is_listening
  · rcases hmq : s.mq with _ | ⟨m2, rest⟩
    · simp only [dispatchStep, hl, hmq, if_true] at h
      exact absurd h (taskPart_no_write s a m)
    · cases env <;> simp only [dispatchStep, hl, hmq, if_true] at h
      · rcases List.mem_cons.mp h with hh | hh
        · injection hh with h1 h2
        · exact absurd hh (taskPart_no_write ⟨rest, s.pq, true⟩ a m)
      · simp at h
      · exact absurd h (taskPart_no_write ⟨rest, s.pq, true⟩ a m)
  · simp [dispatchStep, hl] at h

lemma teardownStep_no_write (s : SessState) (a : Actor) (m : OutMsg) :
    Ev.wsWrite a m ∉ (teardownStep s).2 := by
  intro h
  cases hd : s.disconnected <;> simp [teardownStep, hd] at h

/-- The only connection writes of one session step are by the dispatcher,
the session main coroutine or the inbound receive loop — never by a
recognition callback or the correction stage, which only enqueue. -/
lemma sessionStep_writers (s : SessState) (e : SEnv) (a : Actor) (m : OutMsg)
    (h : Ev.wsWrite a m ∈ (sessionStep s e).2) :
    a = Actor.dispatcher ∨ a = Actor.sessionMain ∨ a = Actor.inboundLoop := by
  by_cases hdone : s.done
  · simp [sessionStep, hdone] at h
  · cases e with
    | timeout => simp [sessionStep, hdone] at h
    | frame data serr =>
      by_cases hstop : data = [] ∨ data = [0]
      · simp only [sessionStep, hdone, if_false, hstop, if_true, Bool.false_eq_true] at h
        exact absurd h (teardownStep_no_write s a m)
      · cases serr with
        | none => simp [sessionStep, hdone, hstop] at h
        | some msg =>
          simp [sessionStep, hdone, hstop] at h
          exact Or.inr (Or.inr h.1)
    | disconnect =>
      simp only [sessionStep, hdone, Bool.false_eq_true, if_false] at h
      exact absurd h (teardownStep_no_write { s with disconnected := true } a m)
    | recvError msg =>
      simp only [sessionStep, hdone, Bool.false_eq_true, if_false] at h
      rcases List.mem_cons.mp h with hh | hh
      · injection hh with h1 h2
        exact Or.inr (Or.inr h1)
      · exact absurd hh (teardownStep_no_write s a m)
    | cancel =>
      simp only [sessionStep, hdone, Bool.false_eq_true, if_false] at h
      exact absurd h (teardownStep_no_write s a m)
    | recognized t =>
      simp only [sessionStep, hdone, Bool.false_eq_true, if_false] at h
      split_ifs at h <;> simp at h
    | recognizing text =>
      simp only [sessionStep, hdone, Bool.false_eq_true, if_false] at h
      split_ifs at h <;> simp at h
    | canceledErr detail =>
      simp only [sessionStep, hdone, Bool.false_eq_true, if_false] at h
      split_ifs at h <;> simp at h
    | tick env =>
      simp only [sessionStep, hdone, Bool.false_eq_true, if_false] at h
      exact Or.inl (dispatchStep_writers s.disp env a m h)

lemma sessionRun_writers (envs : List SEnv) :
    ∀ (s : SessState) (a : Actor) (m : OutMsg),
      Ev.wsWrite a m ∈ (sessionRunFrom s envs).2 →
      a = Actor.dispatcher ∨ a = Actor.sessionMain ∨ a = Actor.inboundLoop := by
  induction envs with
  | nil =>
    intro s a m h
    simp [sessionRunFrom] at h
  | cons e es ih =>
    intro s a m h
    have hsplit : (sessionRunFrom s (e :: es)).2
        = (sessionStep s e).2 ++ (sessionRunFrom (sessionStep s e).1 es).2 := rfl
    rw [hsplit] at h
    rcases List.mem_append.mp h with h1 | h2
    · exact sessionStep_writers s e a m h1
    · exact ih _ a m h2

/-- C4 counterexample: a frame whose `stream.write` raises makes the
inbound receive loop itself send the error message over the connection —
a connection write performed by the inbound-frame loop, not by the
dispatcher.  This refutes the claim that only the outbound dispatcher task
ever writes to the client connection. -/
theorem only_dispatcher_writes_cex :
    ¬ (∀ (a : Actor) (m : OutMsg),
        Ev.wsWrite a m ∈ sessionTrace [SEnv.frame [1, 2] (some (pystr "boom"))] →
        a = Actor.dispatcher) := by
  intro h
  have hw := h Actor.inboundLoop (OutMsg.error (errHead ++ pystr "boom")) (by decide)
  exact absurd hw (by decide)

/-- C4 (amended): in every session run, every connection write is performed
by the dispatcher task, by the session's main coroutine (the startup status
message), or by the inbound-frame loop (error reports); recognition
callbacks and the correction stage never write to the connection — they
only enqueue messages for the dispatcher. -/
theorem session_writers (envs : List SEnv) (a : Actor) (m : OutMsg)
    (h : Ev.wsWrite a m ∈ sessionTrace envs) :
    a = Actor.dispatcher ∨ a = Actor.sessionMain ∨ a = Actor.inboundLoop := by
  unfold sessionTrace at h
  rcases List.mem_append.mp h with h1 | h2
  · simp [sessionStart] at h1
    exact Or.inr (Or.inl h1.1)
  · exact sessionRun_writers envs initSess a m h2

/-- Witness for `session_writers` at a concrete input. -/
theorem session_writers_witness :
    Actor.sessionMain = Actor.dispatcher ∨ Actor.sessionMain = Actor.sessionMain ∨
      Actor.sessionMain = Actor.inboundLoop :=
  session_writers [] Actor.sessionMain (OutMsg.status (pystr "Recognition started"))
    (by decide)

/-! ## Claim C7 : inbound frame handling -/

/-- C7: while the session is running, an inbound frame that is empty or the
single byte `0x00` makes the receive loop break out into teardown; any
other frame is forwarded to the recognition input stream via
`stream.write`; and if `stream.write` raises, the loop reports the error as
an `error` message over the connection and continues — the session state is
unchanged and the session is not terminated. -/
theorem inbound_frame_handling (s : SessState) (data : List Nat)
    (serr : Option PyStr) (hdone : s.done = false) :
    ((data = [] ∨ data = [0]) →
      sessionStep s (SEnv.frame data serr) = teardownStep s) ∧
    (¬(data = [] ∨ data = [0]) → serr = none →
      sessionStep s (SEnv.frame data serr) = (s, [Ev.submit data])) ∧
    (∀ msg : PyStr, ¬(data = [] ∨ data = [0]) → serr = some msg →
      sessionStep s (SEnv.frame data serr)
        = (s, [Ev.wsWrite Actor.inboundLoop (OutMsg.error (errHead ++ msg))])) := by
  refine ⟨?_, ?_, ?_⟩
  · intro hstop
    simp [sessionStep, hdone, hstop]
  · intro hns hn
    subst hn
    simp [sessionStep, hdone, hns]
  · intro msg hns hsome
    subst hsome
    simp [sessionStep, hdone, hns]

/-- Witness for `inbound_frame_handling` at concrete inputs: the stop
frame, a forwarded audio frame, and a frame whose submit fails. -/
theorem inbound_frame_handling_witness :
    sessionStep initSess (SEnv.frame [] none) = teardownStep initSess ∧
    sessionStep initSess (SEnv.frame [1, 2] none) = (initSess, [Ev.submit [1, 2]]) ∧
    sessionStep initSess (SEnv.frame [3] (some (pystr "boom")))
      = (initSess,
          [Ev.wsWrite Actor.inboundLoop (OutMsg.error (errHead ++ pystr "boom"))]) :=
  ⟨(inbound_frame_handling initSess [] none rfl).1 (Or.inl rfl),
   (inbound_frame_handling initSess [1, 2] none rfl).2.1 (by simp) rfl,
   (inbound_frame_handling initSess [3] (some (pystr "boom")) rfl).2.2
     (pystr "boom") (by simp) rfl⟩

/-! ## Claim C8 : teardown runs exactly once -/

lemma sessionStep_done (s : SessState) (e : SEnv) (h : s.done = true) :
    sessionStep s e = (s, []) := by
  simp [sessionStep, h]

lemma sessionRunFrom_done (envs : List SEnv) :
    ∀ s : SessState, s.done = true → sessionRunFrom s envs = (s, []) := by
  induction envs with
  | nil => intro s h; rfl
  | cons e es ih =>
    intro s h
    simp [sessionRunFrom, sessionStep_done s e h, ih s h]

/-- A teardown-free event list: none of the four teardown actions occur in
the events of a dispatcher iteration. -/
lemma dispatchStep_no_teardown_counts (s : DispState) (env : SendEnv) :
    (dispatchStep s env).2.countP isTeardownRun = 0 ∧
    (dispatchStep s env).2.countP isStopRecognition = 0 ∧
    (dispatchStep s env).2.countP isCloseStream = 0 ∧
    (dispatchStep s env).2.countP isCloseWs = 0 := by
  have hshape : ∀ e ∈ (dispatchStep s env).2,
      (∃ a m, e = Ev.wsWrite a m) ∨ (∃ m, e = Ev.sendFail m) ∨
        (∃ m, e = Ev.enq m) ∨ ∃ a b, e = Ev.correctionDone a b := by
    intro e he
    by_cases hl : s.is_listening
    · rcases hmq : s.mq with _ | ⟨m2, rest⟩
      · simp only [dispatchStep, hl, hmq, if_true] at he
        rcases taskPart_ev_shape s e he with h | h
        · exact Or.inr (Or.inr (Or.inl h))
        · exact Or.inr (Or.inr (Or.inr h))
      · cases env <;> simp only [dispatchStep, hl, hmq, if_true] at he
        · rcases List.mem_cons.mp he with hh | hh
          · exact Or.inl ⟨_, _, hh⟩
          · rcases taskPart_ev_shape ⟨rest, s.pq, true⟩ e hh with h | h
            · exact Or.inr (Or.inr (Or.inl h))
            · exact Or.inr (Or.inr (Or.inr h))
        · simp at he
          exact Or.inr (Or.inl ⟨_, he⟩)
        · rcases taskPart_ev_shape ⟨rest, s.pq, true⟩ e he with h | h
          · exact Or.inr (Or.inr (Or.inl h))
          · exact Or.inr (Or.inr (Or.inr h))
    · simp [dispatchStep, hl] at he
  refine ⟨?_, ?_, ?_, ?_⟩ <;>
    · rw [List.countP_eq_zero]
      intro e he
      rcases hshape e he with ⟨a, m, rfl⟩ | ⟨m, rfl⟩ | ⟨m, rfl⟩ | ⟨a, b, rfl⟩ <;> simp
        [isTeardownRun, isStopRecognition, isCloseStream, isCloseWs]

lemma teardownStep_counts (s : SessState) :
    (teardownStep s).2.countP isTeardownRun = 1 ∧
    (teardownStep s).2.countP isStopRecognition = 1 ∧
    (teardownStep s).2.countP isCloseStream = 1 ∧
    (teardownStep s).1.done = true ∧
    (teardownStep s).1.disconnected = s.disconnected ∧
    (s.disconnected = true → (teardownStep s).2.countP isCloseWs = 0) ∧
    (s.disconnected = false → (teardownStep s).2.countP isCloseWs = 1) := by
  cases hd : s.disconnected <;>
    simp [teardownStep, hd, List.countP_cons, List.countP_nil,
      isTeardownRun, isStopRecognition, isCloseStream, isCloseWs]

/-- Classification of one session step from a live, still-connected state:
either the session keeps running (nothing disconnected, no teardown action
emitted), or this step runs teardown, emitting the teardown marker, the
recognition stop and the stream close exactly once each, and closing the
websocket exactly once unless the exit was a client disconnect. -/
lemma sessionStep_counts (s : SessState) (e : SEnv) (hdone : s.done = false)
    (hdisc : s.disconnected = false) :
    ((sessionStep s e).1.done = false ∧ (sessionStep s e).1.disconnected = false ∧
      (sessionStep s e).2.countP isTeardownRun = 0 ∧
      (sessionStep s e).2.countP isStopRecognition = 0 ∧
      (sessionStep s e).2.countP isCloseStream = 0 ∧
      (sessionStep s e).2.countP isCloseWs = 0) ∨
    ((sessionStep s e).1.done = true ∧
      (sessionStep s e).2.countP isTeardownRun = 1 ∧
      (sessionStep s e).2.countP isStopRecognition = 1 ∧
      (sessionStep s e).2.countP isCloseStream = 1 ∧
      ((sessionStep s e).1.disconnected = true ∨
        (sessionStep s e).2.countP isCloseWs = 1)) := by
  rcases s with ⟨sdisp, sdisc, sdone⟩
  simp only at hdone hdisc
  subst hdone
  subst hdisc
  cases e with
  | timeout =>
    left
    simp [sessionStep]
  | frame data serr =>
    by_cases hstop : data = [] ∨ data = [0]
    · right
      have ht := teardownStep_counts ⟨sdisp, false, false⟩
      simp only [sessionStep, Bool.false_eq_true, if_false, hstop, if_true]
      exact ⟨ht.2.2.2.1, ht.1, ht.2.1, ht.2.2.1, Or.inr (ht.2.2.2.2.2.2 rfl)⟩
    · left
      cases serr with
      | none =>
        simp [sessionStep, hstop, List.countP_cons, List.countP_nil,
          isTeardownRun, isStopRecognition, isCloseStream, isCloseWs]
      | some msg =>
        simp [sessionStep, hstop, List.countP_cons, List.countP_nil,
          isTeardownRun, isStopRecognition, isCloseStream, isCloseWs]
  | disconnect =>
    right
    have ht := teardownStep_counts ⟨sdisp, true, false⟩
    simp only [sessionStep, Bool.false_eq_true, if_false]
    exact ⟨ht.2.2.2.1, ht.1, ht.2.1, ht.2.2.1, Or.inl ht.2.2.2.2.1⟩
  | recvError msg =>
    right
    have ht := teardownStep_counts ⟨sdisp, false, false⟩
    simp only [sessionStep, Bool.false_eq_true, if_false]
    rw [List.countP_cons, List.countP_cons, List.countP_cons, List.countP_cons]
    refine ⟨ht.2.2.2.1, ?_, ?_, ?_, Or.inr ?_⟩
    · rw [ht.1]
      simp [isTeardownRun]
    · rw [ht.2.1]
      simp [isStopRecognition]
    · rw [ht.2.2.1]
      simp [isCloseStream]
    · rw [ht.2.2.2.2.2.2 rfl]
      simp [isCloseWs]
  | cancel =>
    right
    have ht := teardownStep_counts ⟨sdisp, false, false⟩
    simp only [sessionStep, Bool.false_eq_true, if_false]
    exact ⟨ht.2.2.2.1, ht.1, ht.2.1, ht.2.2.1, Or.inr (ht.2.2.2.2.2.2 rfl)⟩
  | recognized t =>
    left
    simp only [sessionStep, Bool.false_eq_true, if_false]
    split_ifs <;> simp
  | recognizing text =>
    left
    simp only [sessionStep, Bool.false_eq_true, if_false]
    split_ifs <;> simp
  | canceledErr detail =>
    left
    simp only [sessionStep, Bool.false_eq_true, if_false]
    split_ifs <;> simp
  | tick env =>
    left
    have hc := dispatchStep_no_teardown_counts sdisp env
    simp only [sessionStep, Bool.false_eq_true, if_false]
    exact ⟨trivial, trivial, hc.1, hc.2.1, hc.2.2.1, hc.2.2.2⟩

/-- Whole-run invariant for teardown counts: from a live connected state,
either the session is still live and no teardown action has happened, or it
has finished and each teardown action has happened exactly once (the
websocket close being skipped exactly when the client disconnected). -/
lemma sessionRunFrom_counts (envs : List SEnv) :
    ∀ s : SessState, s.done = false → s.disconnected = false →
      (((sessionRunFrom s envs).1.done = false ∧
        (sessionRunFrom s envs).1.disconnected = false ∧
        (sessionRunFrom s envs).2.countP isTeardownRun = 0 ∧
        (sessionRunFrom s envs).2.countP isStopRecognition = 0 ∧
        (sessionRunFrom s envs).2.countP isCloseStream = 0 ∧
        (sessionRunFrom s envs).2.countP isCloseWs = 0) ∨
       ((sessionRunFrom s envs).1.done = true ∧
        (sessionRunFrom s envs).2.countP isTeardownRun = 1 ∧
        (sessionRunFrom s envs).2.countP isStopRecognition = 1 ∧
        (sessionRunFrom s envs).2.countP isCloseStream = 1 ∧
        ((sessionRunFrom s envs).1.disconnected = true ∨
          (sessionRunFrom s envs).2.countP isCloseWs = 1))) := by
  induction envs with
  | nil =>
    intro s hdone hdisc
    left
    exact ⟨hdone, hdisc, rfl, rfl, rfl, rfl⟩
  | cons e es ih =>
    intro s hdone hdisc
    have hsh : (sessionRunFrom s (e :: es)).2
        = (sessionStep s e).2 ++ (sessionRunFrom (sessionStep s e).1 es).2 := rfl
    have hst : (sessionRunFrom s (e :: es)).1
        = (sessionRunFrom (sessionStep s e).1 es).1 := rfl
    rcases sessionStep_counts s e hdone hdisc with
      ⟨h1, h2, h3, h4, h5, h6⟩ | ⟨h1, h3, h4, h5, h6⟩
    · rcases ih (sessionStep s e).1 h1 h2 with
        ⟨g1, g2, g3, g4, g5, g6⟩ | ⟨g1, g3, g4, g5, g6⟩
      · left
        rw [hsh, hst]
        refine ⟨g1, g2, ?_, ?_, ?_, ?_⟩ <;> rw [List.countP_append] <;> omega
      · right
        rw [hsh, hst]
        refine ⟨g1, ?_, ?_, ?_, ?_⟩
        · rw [List.countP_append]; omega
        · rw [List.countP_append]; omega
        · rw [List.countP_append]; omega
        · rcases g6 with g6 | g6
          · exact Or.inl g6
          · refine Or.inr ?_
            rw [List.countP_append]; omega
    · have hrest := sessionRunFrom_done es (sessionStep s e).1 h1
      right
      rw [hsh, hst, hrest]
      refine ⟨h1, ?_, ?_, ?_, ?_⟩
      · rw [List.countP_append]; simp [h3]
      · rw [List.countP_append]; simp [h4]
      · rw [List.countP_append]; simp [h5]
      · rcases h6 with h6 | h6
        · exact Or.inl h6
        · refine Or.inr ?_
          rw [List.countP_append]; simp [h6]

lemma sessionRunFrom_append (a b : List SEnv) :
    ∀ s : SessState,
      sessionRunFrom s (a ++ b)
        = ((sessionRunFrom (sessionRunFrom s a).1 b).1,
           (sessionRunFrom s a).2 ++ (sessionRunFrom (sessionRunFrom s a).1 b).2) := by
  induction a with
  | nil => intro s; rfl
  | cons e es ih =>
    intro s
    have h := ih (sessionStep s e).1
    simp only [List.cons_append, sessionRunFrom, List.append_eq, h, List.append_assoc]

/-- Forwarded audio frames (non-stop frames, whether or not their submit
raises) leave the session state unchanged. -/
lemma sessionRunFrom_audio (frames : List SEnv) :
    ∀ s : SessState,
      (∀ f ∈ frames, ∃ (data : List Nat) (serr : Option PyStr),
        f = SEnv.frame data serr ∧ data ≠ [] ∧ data ≠ [0]) →
      s.done = false → (sessionRunFrom s frames).1 = s := by
  induction frames with
  | nil => intro s _ _; rfl
  | cons f fs ih =>
    intro s hf hdone
    obtain ⟨data, serr, rfl, hne, hn0⟩ := hf f (List.mem_cons_self f fs)
    have hstop : ¬(data = [] ∨ data = [0]) := by
      intro h
      rcases h with h | h
      · exact hne h
      · exact hn0 h
    have hstep1 : (sessionStep s (SEnv.frame data serr)).1 = s := by
      cases serr <;> simp [sessionStep, hdone, hstop]
    have hshape : (sessionRunFrom s (SEnv.frame data serr :: fs)).1
        = (sessionRunFrom (sessionStep s (SEnv.frame data serr)).1 fs).1 := rfl
    rw [hshape, hstep1]
    exact ih s (fun f2 hf2 => hf f2 (List.mem_cons_of_mem _ hf2)) hdone

/-- C8: whenever a session run reaches teardown (its `done` flag), the
teardown block has run exactly once, the recognition engine has been
stopped exactly once, the audio stream has been closed exactly once, and
the websocket has been closed (by the session unless the client itself
disconnected); and every sequence of audio frames followed by a stop frame
does reach teardown.  This covers all exit paths uniformly, since the
counts hold for arbitrary environment sequences, including disconnects,
receive errors and cancellation. -/
theorem teardown_exactly_once (envs frames : List SEnv)
    (hf : ∀ f ∈ frames, ∃ (data : List Nat) (serr : Option PyStr),
        f = SEnv.frame data serr ∧ data ≠ [] ∧ data ≠ [0]) :
    ((sessionRunFrom initSess envs).1.done = true →
      (sessionRunFrom initSess envs).2.countP isTeardownRun = 1 ∧
      (sessionRunFrom initSess envs).2.countP isStopRecognition = 1 ∧
      (sessionRunFrom initSess envs).2.countP isCloseStream = 1 ∧
      ((sessionRunFrom initSess envs).1.disconnected = true ∨
        (sessionRunFrom initSess envs).2.countP isCloseWs = 1)) ∧
    (sessionRunFrom initSess (frames ++ [SEnv.frame [] none])).1.done = true := by
  constructor
  · intro hdone
    rcases sessionRunFrom_counts envs initSess rfl rfl with ⟨h1, _⟩ | h
    · rw [hdone] at h1
      exact absurd h1 (by simp)
    · exact ⟨h.2.1, h.2.2.1, h.2.2.2.1, h.2.2.2.2⟩
  · rw [sessionRunFrom_append frames [SEnv.frame [] none] initSess]
    simp only
    rw [sessionRunFrom_audio frames initSess hf rfl]
    decide

/-- Witness for `teardown_exactly_once` at a concrete input: one audio
frame followed by the stop frame. -/
theorem teardown_exactly_once_witness :
    ((sessionRunFrom initSess [SEnv.frame [1] none, SEnv.frame [] none]).2.countP
        isTeardownRun = 1 ∧
      (sessionRunFrom initSess [SEnv.frame [1] none, SEnv.frame [] none]).2.countP
        isStopRecognition = 1 ∧
      (sessionRunFrom initSess [SEnv.frame [1] none, SEnv.frame [] none]).2.countP
        isCloseStream = 1 ∧
      ((sessionRunFrom initSess
          [SEnv.frame [1] none, SEnv.frame [] none]).1.disconnected = true ∨
        (sessionRunFrom initSess [SEnv.frame [1] none, SEnv.frame [] none]).2.countP
          isCloseWs = 1)) ∧
    (sessionRunFrom initSess ([SEnv.frame [1] none] ++ [SEnv.frame [] none])).1.done
      = true := by
  have h := teardown_exactly_once [SEnv.frame [1] none, SEnv.frame [] none]
    [SEnv.frame [1] none]
    (by
      intro f hf2
      simp at hf2
      subst hf2
      exact ⟨[1], none, rfl, by simp, by simp⟩)
  exact ⟨h.1 (by decide), h.2⟩
